import Mathlib

/-!
Verification development for two codecs of the pdf-lib core:

* `PDFXRefStream` (src/core/pdf-structures/PDFXRefStream.ts): the
  cross-reference entry table encoder.
* `PNGXObjectFactory` (src/core/pdf-structures/factories/PNGXObjectFactory.js):
  the image embedding pipeline.

JS numbers appearing here are the nonnegative integers of the encoder's
domain (object numbers, offsets, generation numbers, byte values), so they
are embedded as `Nat`.  Uint8Array stores coerce values with `% 256`,
ignore out-of-range writes and read `undefined` (coerced to `0`) out of
range; these semantics are made explicit below.
-/

/-! ## JS primitives used by PDFXRefStream -/

/-- Digit count of `n.toString(2)` in JS; fueled structural version of the
repeated halving (`fuel = n` always suffices since `n / 2 < n` for `2 ≤ n`;
for `n < 2` the string is a single digit, in particular `(0).toString(2)`
is the one-character string "0"). -/
def binLenAux : Nat → Nat → Nat
  | _, 0 => 1
  | n, fuel + 1 => if n < 2 then 1 else binLenAux (n / 2) fuel + 1

/-- Length of `n.toString(2)` in JS. -/
def binDigitsLen (n : Nat) : Nat := binLenAux n n

/-- Digit values of `n.toString(16)` in JS, most significant first; fueled
structural version of repeated division by 16 (`fuel = n` suffices). -/
def hexDigitsAux : Nat → Nat → List Nat
  | n, 0 => [n]
  | n, fuel + 1 => if n < 16 then [n] else hexDigitsAux (n / 16) fuel ++ [n % 16]

/-- Digit values of `n.toString(16)`, most significant first. -/
def hexDigits (n : Nat) : List Nat := hexDigitsAux n n

/-- JS digit characters as produced by `Number.prototype.toString` (lower
case for 10..15). -/
def jsDigitChar (d : Nat) : Char :=
  if d = 0 then '0' else if d = 1 then '1' else if d = 2 then '2'
  else if d = 3 then '3' else if d = 4 then '4' else if d = 5 then '5'
  else if d = 6 then '6' else if d = 7 then '7' else if d = 8 then '8'
  else if d = 9 then '9' else if d = 10 then 'a' else if d = 11 then 'b'
  else if d = 12 then 'c' else if d = 13 then 'd' else if d = 14 then 'e'
  else 'f'

/-- `n.toString(16).toUpperCase()` as a character list. -/
def jsHexUpper (n : Nat) : List Char :=
  ((hexDigits n).map jsDigitChar).map Char.toUpper

/-- lodash `padStart(s, w, '0')`: left-pad with `'0'` up to length `w`;
a string already at least `w` long is returned unchanged. -/
def padStartZero (w : Nat) (s : List Char) : List Char :=
  List.replicate (w - s.length) '0' ++ s

/-- lodash `max`: maximum of a list of numbers, `undefined` (here `none`)
on the empty list. -/
def jsMax (l : List Nat) : Option Nat :=
  match l with
  | [] => none
  | x :: xs => some (xs.foldl Nat.max x)

/-! ## PDFXRefStream -/

/-- One xref entry as stored by the encoder: the raw `[number, number,
number]` triple pushed by `addFreeObjectEntry` / `addUncompressedObjectEntry`
/ `addCompressedObjectEntry`. -/
abbrev XRefEntry := Nat × Nat × Nat

/-- `addFreeObjectEntry`: push `[0, nextFreeObjectNum, generationNum]`. -/
def addFreeObjectEntry (entries : List XRefEntry) (nextFreeObjectNum generationNum : Nat) :
    List XRefEntry :=
  entries ++ [(0, nextFreeObjectNum, generationNum)]

/-- `addUncompressedObjectEntry`: push `[1, byteOffset, generationNum]`. -/
def addUncompressedObjectEntry (entries : List XRefEntry) (byteOffset generationNum : Nat) :
    List XRefEntry :=
  entries ++ [(1, byteOffset, generationNum)]

/-- `addCompressedObjectEntry`: push `[2, objectStreamNum, index]`. -/
def addCompressedObjectEntry (entries : List XRefEntry) (objectStreamNum index : Nat) :
    List XRefEntry :=
  entries ++ [(2, objectStreamNum, index)]

/-- `Math.ceil(m.toString(2).length / 8)`: byte width derived for a column
whose maximum is `m`. -/
def byteWidth (m : Nat) : Nat := (binDigitsLen m + 7) / 8

/-- `maxEntryByteWidths`: per-column byte widths.  lodash `max` of an empty
column is `undefined` and the subsequent `.toString(2)` throws, modelled by
`none`. -/
def maxEntryByteWidths (entries : List XRefEntry) : Option (Nat × Nat × Nat) :=
  match jsMax (entries.map (fun e => e.1)),
        jsMax (entries.map (fun e => e.2.1)),
        jsMax (entries.map (fun e => e.2.2)) with
  | some a, some b, some c => some (byteWidth a, byteWidth b, byteWidth c)
  | _, _, _ => none

/-- `entriesToString`: each entry rendered as three uppercase-hex fields
padded to `width * 2` characters, joined by spaces; rows joined by
newlines.  `none` when the width computation throws (empty entry list). -/
def entriesToString (entries : List XRefEntry) : Option (List Char) :=
  (maxEntryByteWidths entries).map fun ws =>
    List.intercalate ['\n']
      (entries.map fun e =>
        List.intercalate [' ']
          [padStartZero (ws.1 * 2) (jsHexUpper e.1),
           padStartZero (ws.2.1 * 2) (jsHexUpper e.2.1),
           padStartZero (ws.2.2 * 2) (jsHexUpper e.2.2)])

/-- The dictionary fields written by `updateDictionary` (`W` and `Length`);
the remaining fields (`Type`, `Filter`) are fixed at construction, so the
serialized header is a function of this record. -/
structure XRefDict where
  W : List Nat
  Length : Nat
deriving DecidableEq

/-- `updateDictionary`: sets `W` to the derived widths and `Length` to
`entriesToString().length`; throws (`none`) when the entry list is empty. -/
def updateDictionary (entries : List XRefEntry) : Option XRefDict :=
  match maxEntryByteWidths entries, entriesToString entries with
  | some ws, some s => some ⟨[ws.1, ws.2.1, ws.2.2], s.length⟩
  | _, _ => none

/-- Bytes of a string literal as written by `addStringToBuffer` (one byte
per character; every character emitted by the encoder is ASCII). -/
def strBytes (s : String) : List Nat := s.toList.map Char.toNat

/-- `bytesSize`: `updateDictionary()` then `dictionary.bytesSize() + 1 + 7 +
entriesToString().length + 10`.  The dictionary serializer `dictSer` is the
external structured-value container, modelled from the spec (§6): a pure
byte rendering of the dictionary content whose `bytesSize` is its length.
`none` models the throw on an empty entry list. -/
def bytesSize (dictSer : XRefDict → List Nat) (entries : List XRefEntry) : Option Nat :=
  match updateDictionary entries, entriesToString entries with
  | some d, some s => some ((dictSer d).length + 1 + 7 + s.length + 10)
  | _, _ => none

/-- `copyBytesInto`: `updateDictionary()`, `validateDictionary()` (modelled
from the spec: the required fields were just set, so validation passes),
then writes the dictionary bytes, "\nstream\n", the rendered entries and
"\nendstream" at the start of `buffer`.  Returns the buffer after the call
together with `some bytesWritten` (the JS method returns the remaining
subarray; `bytesWritten` is the distance consumed).  On an empty entry list
`updateDictionary` throws before any write: the buffer is returned
unchanged with `none`. -/
def copyBytesInto (dictSer : XRefDict → List Nat) (entries : List XRefEntry)
    (buffer : List Nat) : List Nat × Option Nat :=
  match updateDictionary entries, entriesToString entries with
  | some d, some s =>
    let bytes := dictSer d ++ strBytes "\nstream\n" ++ s.map Char.toNat ++
      strBytes "\nendstream"
    (bytes ++ buffer.drop bytes.length, some bytes.length)
  | _, _ => (buffer, none)

/-! ## Width arithmetic lemmas -/

theorem binLenAux_pos (fuel n : Nat) : 0 < binLenAux n fuel := by
  cases fuel with
  | zero => simp [binLenAux]
  | succ f =>
    simp only [binLenAux]
    split <;> omega

theorem binLenAux_bounds (fuel : Nat) : ∀ n : Nat, 0 < n → n ≤ fuel →
    n < 2 ^ binLenAux n fuel ∧ 2 ^ (binLenAux n fuel - 1) ≤ n := by
  induction fuel with
  | zero => intro n hn hle; omega
  | succ f ih =>
    intro n hn hle
    simp only [binLenAux]
    split
    · constructor
      · have : n = 1 := by omega
        subst this; simp
      · have : n = 1 := by omega
        subst this; simp
    · rename_i hge
      have h2 : 2 ≤ n := by omega
      have hdivlt : n / 2 < n := Nat.div_lt_self (by omega) (by omega)
      have hdpos : 0 < n / 2 := Nat.div_pos h2 (by omega)
      obtain ⟨ihu, ihl⟩ := ih (n / 2) hdpos (by omega)
      set L := binLenAux (n / 2) f with hL
      have hLpos : 0 < L := binLenAux_pos f (n / 2)
      have hmod : n % 2 < 2 := Nat.mod_lt n (by omega)
      have hdm : 2 * (n / 2) + n % 2 = n := Nat.div_add_mod n 2
      constructor
      · have h1 : n < 2 * (n / 2 + 1) := by omega
        have h2' : n / 2 + 1 ≤ 2 ^ L := ihu
        have : 2 * (n / 2 + 1) ≤ 2 * 2 ^ L := by omega
        have hp : 2 * 2 ^ L = 2 ^ (L + 1) := by
          rw [Nat.pow_succ]; ring
        omega
      · have h1 : 2 ^ (L + 1 - 1) = 2 ^ L := by simp
        rw [h1]
        have hLs : L - 1 + 1 = L := by omega
        have h2' : 2 ^ L = 2 ^ (L - 1) * 2 := by
          conv_lhs => rw [← hLs]
          rw [Nat.pow_succ]
        have h3 : 2 ^ (L - 1) * 2 ≤ 2 * (n / 2) := by omega
        omega

theorem binDigitsLen_bounds (n : Nat) (hn : 0 < n) :
    n < 2 ^ binDigitsLen n ∧ 2 ^ (binDigitsLen n - 1) ≤ n :=
  binLenAux_bounds n n hn (Nat.le_refl n)

theorem binDigitsLen_pos (n : Nat) : 0 < binDigitsLen n := binLenAux_pos n n

/-- Correctness of the derived byte widths: `2 ^ (8 w) > m` always, and
`2 ^ (8 (w - 1)) ≤ m` whenever `m > 0`. -/
theorem byteWidth_bounds (m : Nat) :
    m < 2 ^ (8 * byteWidth m) ∧ (0 < m → 2 ^ (8 * (byteWidth m - 1)) ≤ m) := by
  rcases Nat.eq_zero_or_pos m with hm | hm
  · subst hm
    constructor
    · show 0 < 2 ^ (8 * byteWidth 0)
      exact Nat.pos_pow_of_pos _ (by omega)
    · omega
  · obtain ⟨hu, hl⟩ := binDigitsLen_bounds m hm
    set L := binDigitsLen m with hLdef
    have hLpos : 0 < L := binDigitsLen_pos m
    have hw : byteWidth m = (L + 7) / 8 := rfl
    set w := (L + 7) / 8 with hwdef
    have hdm : 8 * ((L + 7) / 8) + (L + 7) % 8 = L + 7 := Nat.div_add_mod (L + 7) 8
    have hmod : (L + 7) % 8 < 8 := Nat.mod_lt _ (by omega)
    have h8wL : L ≤ 8 * w := by omega
    have hwpos : 0 < w := by
      have : 8 ≤ L + 7 := by omega
      have := Nat.one_le_div_iff (by omega : 0 < 8) |>.mpr this
      omega
    constructor
    · rw [hw]
      calc m < 2 ^ L := hu
        _ ≤ 2 ^ (8 * w) := Nat.pow_le_pow_right (by omega) h8wL
    · intro _
      rw [hw]
      have h1 : 8 * w ≤ L + 7 := by omega
      have h2 : 8 * (w - 1) ≤ L - 1 := by omega
      calc 2 ^ (8 * (w - 1)) ≤ 2 ^ (L - 1) := Nat.pow_le_pow_right (by omega) h2
        _ ≤ m := hl

/-! ## Basic facts about the encoder -/

theorem jsMax_cons (x : Nat) (xs : List Nat) : jsMax (x :: xs) = some (xs.foldl Nat.max x) :=
  rfl

theorem maxEntryByteWidths_nonempty (e : XRefEntry) (rest : List XRefEntry) :
    maxEntryByteWidths (e :: rest) =
      some (byteWidth ((rest.map (fun x => x.1)).foldl Nat.max e.1),
            byteWidth ((rest.map (fun x => x.2.1)).foldl Nat.max e.2.1),
            byteWidth ((rest.map (fun x => x.2.2)).foldl Nat.max e.2.2)) := rfl

/-- Entry list of the worked example in the spec:
`[(Free,0,65535), (Uncompressed,1000,0), (Compressed,5,3)]`. -/
def exampleEntries : List XRefEntry := [(0, 0, 65535), (1, 1000, 0), (2, 5, 3)]

/-- C1: for every non-empty entry list, `copyBytesInto` writes exactly
`bytesSize()` bytes into the buffer (dictionary bytes plus the
"\nstream\n" and "\nendstream" framing plus the rendered entries string),
for any dictionary serializer satisfying the external byte-exact contract
and with no mutation between the two calls. -/
theorem copyBytesInto_writes_bytesSize (dictSer : XRefDict → List Nat)
    (entries : List XRefEntry) (buffer : List Nat) (h : entries ≠ []) :
    ∃ n, bytesSize dictSer entries = some n ∧
      (copyBytesInto dictSer entries buffer).2 = some n := by
  obtain ⟨e, rest, rfl⟩ : ∃ e rest, entries = e :: rest := by
    cases entries with
    | nil => exact absurd rfl h
    | cons e rest => exact ⟨e, rest, rfl⟩
  obtain ⟨ws, hws⟩ : ∃ ws, maxEntryByteWidths (e :: rest) = some ws :=
    ⟨_, maxEntryByteWidths_nonempty e rest⟩
  obtain ⟨s, hs⟩ : ∃ s, entriesToString (e :: rest) = some s := by
    rw [entriesToString, hws]; exact ⟨_, rfl⟩
  have hud : updateDictionary (e :: rest) = some ⟨[ws.1, ws.2.1, ws.2.2], s.length⟩ := by
    rw [updateDictionary, hws, hs]
  refine ⟨(dictSer ⟨[ws.1, ws.2.1, ws.2.2], s.length⟩).length + 1 + 7 + s.length + 10,
    ?_, ?_⟩
  · rw [bytesSize, hud, hs]
  · rw [copyBytesInto, hud, hs]
    have h8 : (strBytes "\nstream\n").length = 8 := rfl
    have h10 : (strBytes "\nendstream").length = 10 := rfl
    simp only [List.length_append, List.length_map, h8, h10]

/-- Closed instance of C1 at a concrete dictionary serializer, entry list
and buffer. -/
theorem copyBytesInto_writes_bytesSize_witness :
    ∃ n, bytesSize (fun _ => List.replicate 20 65) [(1, 5, 0)] = some n ∧
      (copyBytesInto (fun _ => List.replicate 20 65) [(1, 5, 0)]
        (List.replicate 60 0)).2 = some n :=
  copyBytesInto_writes_bytesSize (fun _ => List.replicate 20 65) [(1, 5, 0)]
    (List.replicate 60 0) (List.cons_ne_nil _ _)

/-- C9: on an empty entry set both `bytesSize` and `copyBytesInto` fail
(the width computation hits lodash `max = undefined` and throws), and the
failed write leaves the buffer unmodified: not a single byte is written
before the failure. -/
theorem empty_entries_fail_fast (dictSer : XRefDict → List Nat) (buffer : List Nat) :
    bytesSize dictSer [] = none ∧ copyBytesInto dictSer [] buffer = (buffer, none) :=
  ⟨rfl, rfl⟩

/-- C5: the derived widths over-cover each column maximum
(`2 ^ (8 w) > max`) and are minimal when the maximum is nonzero
(`2 ^ (8 (w - 1)) ≤ max`). -/
theorem maxEntryByteWidths_width_bounds (entries : List XRefEntry)
    (w1 w2 w3 m1 m2 m3 : Nat)
    (hw : maxEntryByteWidths entries = some (w1, w2, w3))
    (h1 : jsMax (entries.map (fun e => e.1)) = some m1)
    (h2 : jsMax (entries.map (fun e => e.2.1)) = some m2)
    (h3 : jsMax (entries.map (fun e => e.2.2)) = some m3) :
    (m1 < 2 ^ (8 * w1) ∧ (0 < m1 → 2 ^ (8 * (w1 - 1)) ≤ m1)) ∧
    (m2 < 2 ^ (8 * w2) ∧ (0 < m2 → 2 ^ (8 * (w2 - 1)) ≤ m2)) ∧
    (m3 < 2 ^ (8 * w3) ∧ (0 < m3 → 2 ^ (8 * (w3 - 1)) ≤ m3)) := by
  rw [maxEntryByteWidths, h1, h2, h3] at hw
  simp only [Option.some.injEq, Prod.mk.injEq] at hw
  obtain ⟨hw1, hw2, hw3⟩ := hw
  subst hw1; subst hw2; subst hw3
  exact ⟨byteWidth_bounds m1, byteWidth_bounds m2, byteWidth_bounds m3⟩

/-- Closed instance of C5 at the worked-example entry list, whose column
maxima are 2, 1000 and 65535 with widths 1, 2 and 2. -/
theorem maxEntryByteWidths_width_bounds_witness :
    ((2 : Nat) < 2 ^ (8 * 1) ∧ (0 < 2 → 2 ^ (8 * (1 - 1)) ≤ (2 : Nat))) ∧
    ((1000 : Nat) < 2 ^ (8 * 2) ∧ (0 < 1000 → 2 ^ (8 * (2 - 1)) ≤ (1000 : Nat))) ∧
    ((65535 : Nat) < 2 ^ (8 * 2) ∧ (0 < 65535 → 2 ^ (8 * (2 - 1)) ≤ (65535 : Nat))) :=
  maxEntryByteWidths_width_bounds exampleEntries 1 2 2 2 1000 65535 rfl rfl rfl rfl

/-- Bit length as the spec words it: `bitlength(0) = 0`, and for positive
`m` the exact number of binary digits. -/
def specBitLength (m : Nat) : Nat := if m = 0 then 0 else Nat.log2 m + 1

/-- Column byte width as the spec's formula reads:
`ceil(bitlength(max) / 8)`. -/
def specByteWidth (m : Nat) : Nat := (specBitLength m + 7) / 8

/-- C3 counterexample: on the entry list `[(0, 0, 0)]` every column is all
zero, the spec formula gives width 0, but the code derives width 1 (JS
renders 0 as the one-character binary string "0"). -/
theorem allZero_column_width_not_zero :
    maxEntryByteWidths [((0 : Nat), (0 : Nat), (0 : Nat))] = some (1, 1, 1) ∧
    specByteWidth 0 = 0 ∧ (1 : Nat) ≠ 0 :=
  ⟨rfl, rfl, by decide⟩

theorem binDigitsLen_eq_log2 (m : Nat) (hm : 0 < m) :
    binDigitsLen m = Nat.log2 m + 1 := by
  obtain ⟨hu, hl⟩ := binDigitsLen_bounds m hm
  have hLpos := binDigitsLen_pos m
  have hlog : Nat.log2 m = binDigitsLen m - 1 := by
    rw [Nat.log2_eq_log_two]
    apply Nat.log_eq_of_pow_le_of_lt_pow hl
    have hsucc : binDigitsLen m - 1 + 1 = binDigitsLen m := by omega
    rw [hsucc]; exact hu
  omega

theorem byteWidth_amended (m : Nat) :
    byteWidth m = if m = 0 then 1 else specByteWidth m := by
  rcases Nat.eq_zero_or_pos m with rfl | hm
  · rfl
  · rw [if_neg (by omega)]
    unfold specByteWidth specBitLength
    rw [if_neg (by omega), ← binDigitsLen_eq_log2 m hm]
    rfl

/-- C3 amended: the derived byte width equals the spec's
`ceil(bitlength(max) / 8)` whenever the column maximum is nonzero, but an
all-zero column derives width 1 (not 0). -/
theorem maxEntryByteWidths_amended (entries : List XRefEntry)
    (w1 w2 w3 m1 m2 m3 : Nat)
    (hw : maxEntryByteWidths entries = some (w1, w2, w3))
    (h1 : jsMax (entries.map (fun e => e.1)) = some m1)
    (h2 : jsMax (entries.map (fun e => e.2.1)) = some m2)
    (h3 : jsMax (entries.map (fun e => e.2.2)) = some m3) :
    w1 = (if m1 = 0 then 1 else specByteWidth m1) ∧
    w2 = (if m2 = 0 then 1 else specByteWidth m2) ∧
    w3 = (if m3 = 0 then 1 else specByteWidth m3) := by
  rw [maxEntryByteWidths, h1, h2, h3] at hw
  simp only [Option.some.injEq, Prod.mk.injEq] at hw
  obtain ⟨hw1, hw2, hw3⟩ := hw
  subst hw1; subst hw2; subst hw3
  exact ⟨byteWidth_amended m1, byteWidth_amended m2, byteWidth_amended m3⟩

/-- Closed instance of the amended C3 at the all-zero entry list. -/
theorem maxEntryByteWidths_amended_witness :
    (1 : Nat) = (if (0 : Nat) = 0 then 1 else specByteWidth 0) ∧
    (1 : Nat) = (if (0 : Nat) = 0 then 1 else specByteWidth 0) ∧
    (1 : Nat) = (if (0 : Nat) = 0 then 1 else specByteWidth 0) :=
  maxEntryByteWidths_amended [((0 : Nat), (0 : Nat), (0 : Nat))] 1 1 1 0 0 0
    rfl rfl rfl rfl

/-- C6: the worked example derives widths `[1, 2, 2]`, renders the three
rows "00 0000 FFFF", "01 03E8 0000", "02 0005 0003" joined by newlines,
and sets the `Length` header field to 38, the joined string's length. -/
theorem xref_worked_example :
    maxEntryByteWidths exampleEntries = some (1, 2, 2) ∧
    entriesToString exampleEntries =
      some ("00 0000 FFFF\n01 03E8 0000\n02 0005 0003".toList) ∧
    updateDictionary exampleEntries = some ⟨[1, 2, 2], 38⟩ ∧
    ("00 0000 FFFF\n01 03E8 0000\n02 0005 0003".toList).length = 38 :=
  ⟨rfl, rfl, rfl, rfl⟩

/-! ## PNGXObjectFactory: structured values and registry

The structured-value container and object registry are external
collaborators (spec §6).  `PDFValue` / `Dict` model exactly the dictionary
shapes the factory builds (names, numbers, number arrays, indirect
references, the numeric `DecodeParms` sub-dictionary and the Indexed
colorspace array); `dictSet` has JS-map semantics (update in place when
the key exists, else append); `registerObj` is the registry's `register`,
modelled from the spec: it mints the next strictly increasing identity, here
the current number of registered objects. -/

inductive PDFValue where
  | pname : String → PDFValue
  | pnum : Nat → PDFValue
  | pnumArr : List Nat → PDFValue
  | pref : Nat → PDFValue
  | pparams : List (String × Nat) → PDFValue
  | parr : List PDFValue → PDFValue

abbrev Dict := List (String × PDFValue)

def dictSet : Dict → String → PDFValue → Dict
  | [], k, v => [(k, v)]
  | (k1, v1) :: rest, k, v =>
    if k1 = k then (k, v) :: rest else (k1, v1) :: dictSet rest k v

def dictGet : Dict → String → Option PDFValue
  | [], _ => none
  | (k1, v1) :: rest, k => if k1 = k then some v1 else dictGet rest k

theorem dictGet_dictSet_self (d : Dict) (k : String) (v : PDFValue) :
    dictGet (dictSet d k v) k = some v := by
  induction d with
  | nil => simp [dictSet, dictGet]
  | cons kv rest ih =>
    obtain ⟨k1, v1⟩ := kv
    simp only [dictSet]
    split
    · simp [dictGet]
    · rename_i h
      simp only [dictGet]
      rw [if_neg h]
      exact ih

theorem dictGet_dictSet_ne (d : Dict) (k k2 : String) (v : PDFValue) (hk : k ≠ k2) :
    dictGet (dictSet d k v) k2 = dictGet d k2 := by
  induction d with
  | nil => simp [dictSet, dictGet, hk]
  | cons kv rest ih =>
    obtain ⟨k1, v1⟩ := kv
    simp only [dictSet]
    split
    · rename_i h
      subst h
      simp only [dictGet]
      rw [if_neg hk, if_neg hk]
    · simp only [dictGet]
      split
      · rfl
      · exact ih

/-- A registered raw stream: header dictionary plus payload bytes
(`PDFRawStream.from(dict, bytes)`). -/
structure RawStream where
  dict : Dict
  payload : List Nat

/-- `document.register`: allocates the next object identity and appends the
object; modelled from the spec (§6: strictly increasing,
deterministic-in-call-order integer identity). -/
def registerObj (reg : List RawStream) (s : RawStream) : Nat × List RawStream :=
  (reg.length, reg ++ [s])

/-! ## Uint8Array semantics -/

/-- A JS `Uint8Array`: fixed length, stores coerced to `% 256`, writes out
of range ignored.  (`undefined` read from a plain array is coerced to 0 on
store; reads below use `List.getD _ _ 0` accordingly.) -/
structure U8 where
  data : List Nat

/-- `new Uint8Array(n)`: zero-filled buffer of length `n`. -/
def U8.new (n : Nat) : U8 := ⟨List.replicate n 0⟩

/-- `a[i] = v`: in-range stores set byte `i` to `v % 256`; out-of-range
stores are ignored. -/
def U8.write (a : U8) (i v : Nat) : U8 :=
  if i < a.data.length then ⟨a.data.set i (v % 256)⟩ else a

theorem U8.write_length (a : U8) (i v : Nat) :
    (a.write i v).data.length = a.data.length := by
  unfold U8.write
  split <;> simp

/-! ## splitAlphaChannel's de-interleaving loop -/

/-- The `while (i < pixels.length)` loop of `splitAlphaChannel`: per
iteration, three color bytes go to `img` at `p, p+1, p+2` and one alpha
byte to `alpha` at `a`, then `i += 4`.  Structural fuel version: each
iteration consumes one unit and advances `i` by 4, so `fuel =
pixels.length` always suffices (`splitLoopAux_fuel` below shows the result
does not depend on the fuel once sufficient). -/
def splitLoopAux (pixels : List Nat) : Nat → U8 → U8 → Nat → Nat → Nat → U8 × U8
  | 0, img, alpha, _, _, _ => (img, alpha)
  | fuel + 1, img, alpha, i, p, a =>
    if i < pixels.length then
      splitLoopAux pixels fuel
        (((img.write p (pixels.getD i 0)).write (p + 1) (pixels.getD (i + 1) 0)).write
          (p + 2) (pixels.getD (i + 2) 0))
        (alpha.write a (pixels.getD (i + 3) 0))
        (i + 4) (p + 3) (a + 1)
    else (img, alpha)

theorem splitLoopAux_exit (pixels : List Nat) (fuel : Nat) (img alpha : U8)
    (i p a : Nat) (h : pixels.length ≤ i) :
    splitLoopAux pixels fuel img alpha i p a = (img, alpha) := by
  cases fuel with
  | zero => rfl
  | succ f =>
    simp only [splitLoopAux]
    rw [if_neg (by omega)]

theorem splitLoopAux_fuel (pixels : List Nat) :
    ∀ f g : Nat, ∀ img alpha : U8, ∀ i p a : Nat,
    pixels.length ≤ i + 4 * f → pixels.length ≤ i + 4 * g →
    splitLoopAux pixels f img alpha i p a = splitLoopAux pixels g img alpha i p a := by
  intro f
  induction f with
  | zero =>
    intro g img alpha i p a hf hg
    rw [splitLoopAux_exit pixels 0 img alpha i p a (by omega),
      splitLoopAux_exit pixels g img alpha i p a (by omega)]
  | succ f ih =>
    intro g img alpha i p a hf hg
    by_cases hi : i < pixels.length
    · cases g with
      | zero => omega
      | succ g2 =>
        simp only [splitLoopAux]
        rw [if_pos hi, if_pos hi]
        exact ih g2 _ _ _ _ _ (by omega) (by omega)
    · rw [splitLoopAux_exit pixels (f + 1) img alpha i p a (by omega),
        splitLoopAux_exit pixels g img alpha i p a (by omega)]

theorem splitLoopAux_lengths (pixels : List Nat) :
    ∀ fuel : Nat, ∀ img alpha : U8, ∀ i p a : Nat,
    (splitLoopAux pixels fuel img alpha i p a).1.data.length = img.data.length ∧
    (splitLoopAux pixels fuel img alpha i p a).2.data.length = alpha.data.length := by
  intro fuel
  induction fuel with
  | zero => intro img alpha i p a; exact ⟨rfl, rfl⟩
  | succ f ih =>
    intro img alpha i p a
    simp only [splitLoopAux]
    split
    · obtain ⟨h1, h2⟩ := ih
        (((img.write p (pixels.getD i 0)).write (p + 1) (pixels.getD (i + 1) 0)).write
          (p + 2) (pixels.getD (i + 2) 0))
        (alpha.write a (pixels.getD (i + 3) 0)) (i + 4) (p + 3) (a + 1)
      constructor
      · rw [h1]
        simp [U8.write_length]
      · rw [h2, U8.write_length]
    · exact ⟨rfl, rfl⟩

/-! ## loadIndexedAlphaChannel's lookup loop -/

/-- `pixels.forEach((pixel, idx) => { alphaChannel[idx] = transparency[pixel] })`:
an out-of-table palette index reads `undefined`, which the Uint8Array store
coerces to 0. -/
def indexedAlphaLoop (table : List Nat) : List Nat → Nat → U8 → U8
  | [], _, alpha => alpha
  | px :: rest, idx, alpha =>
    indexedAlphaLoop table rest (idx + 1) (alpha.write idx (table.getD px 0))

theorem take_set_succ : ∀ (l : List Nat) (n a : Nat), n < l.length →
    (l.set n a).take (n + 1) = l.take n ++ [a] := by
  intro l
  induction l with
  | nil => intro n a h; simp at h
  | cons x xs ih =>
    intro n a h
    cases n with
    | zero => simp
    | succ n2 =>
      have h2 : n2 < xs.length := by simpa using h
      simp only [List.set_cons_succ, List.take_succ_cons, List.cons_append]
      rw [ih n2 a h2]

theorem indexedAlphaLoop_data (table : List Nat) :
    ∀ (pixels : List Nat) (idx : Nat) (alpha : U8),
    alpha.data.length = idx + pixels.length →
    (indexedAlphaLoop table pixels idx alpha).data =
      alpha.data.take idx ++ pixels.map (fun p => table.getD p 0 % 256) := by
  intro pixels
  induction pixels with
  | nil =>
    intro idx alpha h
    simp only [indexedAlphaLoop, List.map_nil, List.append_nil]
    simp only [List.length_nil] at h
    rw [List.take_of_length_le (by omega)]
  | cons px rest ih =>
    intro idx alpha h
    simp only [indexedAlphaLoop]
    have hlt : idx < alpha.data.length := by
      simp only [List.length_cons] at h
      omega
    have hwrite : (alpha.write idx (table.getD px 0)).data =
        alpha.data.set idx (table.getD px 0 % 256) := by
      unfold U8.write
      rw [if_pos hlt]
    rw [ih (idx + 1) _ (by
      rw [hwrite, List.length_set]
      simp only [List.length_cons] at h
      omega)]
    rw [hwrite, take_set_succ _ _ _ hlt]
    simp

/-- The full-resolution alpha buffer built by `loadIndexedAlphaChannel`:
`new Uint8Array(width * height)` filled through the alpha lookup table. -/
def indexedAlphaData (table pixels : List Nat) (w h : Nat) : List Nat :=
  (indexedAlphaLoop table pixels 0 (U8.new (w * h))).data

theorem indexedAlphaData_eq_map (table pixels : List Nat) (w h : Nat)
    (hlen : pixels.length = w * h) :
    indexedAlphaData table pixels w h =
      pixels.map (fun p => table.getD p 0 % 256) := by
  unfold indexedAlphaData
  rw [indexedAlphaLoop_data table pixels 0 (U8.new (w * h))
    (by simp [U8.new, hlen])]
  simp

theorem list_getD_map (f : Nat → Nat) :
    ∀ (l : List Nat) (i : Nat), i < l.length →
    (l.map f).getD i 0 = f (l.getD i 0) := by
  intro l
  induction l with
  | nil => intro i h; simp at h
  | cons x xs ih =>
    intro i h
    cases i with
    | zero => rfl
    | succ i2 =>
      simp only [List.map_cons, List.getD_cons_succ]
      exact ih i2 (by simpa using h)

theorem list_getD_mem : ∀ (l : List Nat) (i d : Nat), i < l.length →
    l.getD i d ∈ l := by
  intro l
  induction l with
  | nil => intro i d h; simp at h
  | cons x xs ih =>
    intro i d h
    cases i with
    | zero => simp
    | succ i2 =>
      simp only [List.getD_cons_succ]
      exact List.mem_cons_of_mem x (ih i2 d (by simpa using h))

theorem list_getD_of_le : ∀ (l : List Nat) (i d : Nat), l.length ≤ i →
    l.getD i d = d := by
  intro l
  induction l with
  | nil => intro i d _; simp
  | cons x xs ih =>
    intro i d h
    cases i with
    | zero => simp at h
    | succ i2 =>
      simp only [List.getD_cons_succ]
      exact ih i2 d (by simpa using h)

/-! ## PNGXObjectFactory -/

/-- The decoded raster as the factory reads it off the external `png-js`
decoder (spec §6): dimensions, bit depth, color component count, named
colorspace, palette bytes, the per-palette alpha table
(`transparency.indexed`, absent when the image has no indexed
transparency), the native-alpha marker, the raw (pre-filtered) data bytes
and the result of `decodePixelsSync()` (`none` models the decoder throwing,
e.g. on an unsupported bit depth or colorspace). -/
structure PNGImage where
  width : Nat
  height : Nat
  bits : Nat
  colors : Nat
  colorSpace : String
  palette : List Nat
  transparencyIndexed : Option (List Nat)
  hasAlphaChannel : Bool
  imgData : List Nat
  decodePixels : Option (List Nat)

/-- The `xObjDict` literal built at the top of `embedImageIn`. -/
def baseXObjDict (img : PNGImage) : Dict :=
  [("Type", .pname "XObject"), ("Subtype", .pname "Image"),
   ("BitsPerComponent", .pnum img.bits), ("Width", .pnum img.width),
   ("Height", .pnum img.height), ("Filter", .pname "FlateDecode")]

/-- The `DecodeParms` sub-dictionary (predictor 15, component count, bit
depth, column count). -/
def decodeParmsVal (img : PNGImage) : PDFValue :=
  .pparams [("Predictor", 15), ("Colors", img.colors),
            ("BitsPerComponent", img.bits), ("Columns", img.width)]

/-- `if (!this.image.hasAlphaChannel) { this.xObjDict.set('DecodeParms', params) }`. -/
def withDecodeParms (img : PNGImage) : Dict :=
  if img.hasAlphaChannel then baseXObjDict img
  else dictSet (baseXObjDict img) "DecodeParms" (decodeParmsVal img)

/-- The palette stream registered when `palette.length !== 0`: header
`{ Length: palette.length }`, payload the palette bytes. -/
def paletteRawStream (img : PNGImage) : RawStream :=
  ⟨[("Length", .pnum img.palette.length)], img.palette⟩

/-- The `ColorSpace` step of `embedImageIn`: a named device colorspace when
there is no palette, otherwise register the palette stream and reference it
from an `[ /Indexed /DeviceRGB hival ref ]` array.  (The hival
`palette.length / 3 - 1` is JS float arithmetic; the `Nat` rendering here
agrees with it whenever the palette length is a positive multiple of 3.
No claim depends on this field.) -/
def colorSpaceStep (img : PNGImage) (d : Dict) (reg : List RawStream) :
    Dict × List RawStream :=
  if img.palette.length = 0 then
    (dictSet d "ColorSpace" (.pname img.colorSpace), reg)
  else
    let t := registerObj reg (paletteRawStream img)
    (dictSet d "ColorSpace"
      (.parr [.pname "Indexed", .pname "DeviceRGB",
              .pnum (img.palette.length / 3 - 1), .pref t.1]),
     t.2)

/-- The soft-mask stream header built in `finalize` (8-bit DeviceGray,
decode range [0, 1], `Length` set to the *uncompressed* alpha buffer
length). -/
def alphaStreamDict (img : PNGImage) (len : Nat) : Dict :=
  [("Type", .pname "XObject"), ("Subtype", .pname "Image"),
   ("Height", .pnum img.height), ("Width", .pnum img.width),
   ("BitsPerComponent", .pnum 8), ("Filter", .pname "FlateDecode"),
   ("ColorSpace", .pname "DeviceGray"), ("Decode", .pnumArr [0, 1]),
   ("Length", .pnum len)]

/-- `finalize`: when an alpha channel was produced, register the soft mask
(payload `pako.deflate(alphaChannel)`, header `Length` the raw
`alphaChannel.length`) and link it as `SMask`; then set `Length` to
`imgData.length` and register the primary stream.  `deflate` is the
external compressor (pure `bytes -> bytes`, out of scope per spec §6). -/
def finalize (deflate : List Nat → List Nat) (img : PNGImage) (xObjDict : Dict)
    (imgData : List Nat) (alphaChannel : Option (List Nat)) (reg : List RawStream) :
    Nat × List RawStream :=
  match alphaChannel with
  | some a =>
    let t := registerObj reg ⟨alphaStreamDict img a.length, deflate a⟩
    let d1 := dictSet xObjDict "SMask" (.pref t.1)
    let d2 := dictSet d1 "Length" (.pnum imgData.length)
    registerObj t.2 ⟨d2, imgData⟩
  | none =>
    let d2 := dictSet xObjDict "Length" (.pnum imgData.length)
    registerObj reg ⟨d2, imgData⟩

/-- `splitAlphaChannel`'s buffers: `imgData = new Uint8Array(pixelCount *
colorByteSize)` and `alphaChannel = new Uint8Array(pixelCount)` filled by
the de-interleaving loop (`colorByteSize = colors * bits / 8`, exact for
the 8-bit-per-component images this branch handles). -/
def splitAlphaBuffers (img : PNGImage) (pixels : List Nat) : U8 × U8 :=
  splitLoopAux pixels pixels.length
    (U8.new (img.width * img.height * (img.colors * img.bits / 8)))
    (U8.new (img.width * img.height)) 0 0 0

/-- `embedImageIn`: build the header, attach `DecodeParms` for
non-alpha images, resolve the colorspace (registering a palette stream
when a palette exists), then dispatch on the transparency kind:
indexed-alpha lookup (`loadIndexedAlphaChannel`), native alpha
de-interleave (`splitAlphaChannel`), or direct `finalize`.  Returns the
primary resource reference and the registry after the call; `(none, reg)`
models `decodePixelsSync()` throwing, which propagates out and leaves
every registration already performed (the palette stream) in place. -/
def embedImageIn (deflate : List Nat → List Nat) (img : PNGImage)
    (reg : List RawStream) : Option Nat × List RawStream :=
  let d1 := withDecodeParms img
  let d2 := (colorSpaceStep img d1 reg).1
  let reg1 := (colorSpaceStep img d1 reg).2
  match img.transparencyIndexed, img.hasAlphaChannel with
  | some table, _ =>
    match img.decodePixels with
    | none => (none, reg1)
    | some pixels =>
      let t := finalize deflate img d2 img.imgData
        (some (indexedAlphaData table pixels img.width img.height)) reg1
      (some t.1, t.2)
  | none, true =>
    match img.decodePixels with
    | none => (none, reg1)
    | some pixels =>
      let bufs := splitAlphaBuffers img pixels
      let t := finalize deflate img d2 (deflate bufs.1.data)
        (some bufs.2.data) reg1
      (some t.1, t.2)
  | none, false =>
    let t := finalize deflate img d2 img.imgData none reg1
    (some t.1, t.2)

theorem colorSpaceStep_snd (img : PNGImage) (d : Dict) (reg : List RawStream) :
    (colorSpaceStep img d reg).2 =
      if img.palette.length = 0 then reg else reg ++ [paletteRawStream img] := by
  unfold colorSpaceStep
  split
  · rfl
  · rfl

theorem finalize_some_eq (deflate : List Nat → List Nat) (img : PNGImage)
    (xObjDict : Dict) (imgData a : List Nat) (reg : List RawStream) :
    finalize deflate img xObjDict imgData (some a) reg =
      ((reg ++ [(⟨alphaStreamDict img a.length, deflate a⟩ : RawStream)]).length,
       reg ++ [(⟨alphaStreamDict img a.length, deflate a⟩ : RawStream),
               (⟨dictSet (dictSet xObjDict "SMask" (.pref reg.length)) "Length"
                  (.pnum imgData.length), imgData⟩ : RawStream)]) := by
  simp only [finalize, registerObj]
  rw [List.append_assoc]
  rfl

theorem embedImageIn_native_eq (deflate : List Nat → List Nat) (img : PNGImage)
    (reg : List RawStream) (pixels : List Nat)
    (ht : img.transparencyIndexed = none) (ha : img.hasAlphaChannel = true)
    (hd : img.decodePixels = some pixels) :
    embedImageIn deflate img reg =
      (some (finalize deflate img (colorSpaceStep img (withDecodeParms img) reg).1
          (deflate (splitAlphaBuffers img pixels).1.data)
          (some (splitAlphaBuffers img pixels).2.data)
          (colorSpaceStep img (withDecodeParms img) reg).2).1,
       (finalize deflate img (colorSpaceStep img (withDecodeParms img) reg).1
          (deflate (splitAlphaBuffers img pixels).1.data)
          (some (splitAlphaBuffers img pixels).2.data)
          (colorSpaceStep img (withDecodeParms img) reg).2).2) := by
  simp only [embedImageIn, ht, ha, hd]

theorem embedImageIn_indexed_eq (deflate : List Nat → List Nat) (img : PNGImage)
    (reg : List RawStream) (table pixels : List Nat)
    (ht : img.transparencyIndexed = some table)
    (hd : img.decodePixels = some pixels) :
    embedImageIn deflate img reg =
      (some (finalize deflate img (colorSpaceStep img (withDecodeParms img) reg).1
          img.imgData (some (indexedAlphaData table pixels img.width img.height))
          (colorSpaceStep img (withDecodeParms img) reg).2).1,
       (finalize deflate img (colorSpaceStep img (withDecodeParms img) reg).1
          img.imgData (some (indexedAlphaData table pixels img.width img.height))
          (colorSpaceStep img (withDecodeParms img) reg).2).2) := by
  simp only [embedImageIn, ht, hd]

/-- C7: a native-alpha (RGBA) image with no palette registers exactly two
resources: first the grayscale soft mask (payload the compressed alpha
buffer, whose raw length is `width * height`), then the primary image
stream whose header links the soft mask through `SMask`; the de-interleaved
color buffer has length `width * height * (colors * bits / 8)`. -/
theorem rgba_embed_two_resources (deflate : List Nat → List Nat) (img : PNGImage)
    (reg : List RawStream) (pixels : List Nat)
    (ht : img.transparencyIndexed = none) (ha : img.hasAlphaChannel = true)
    (hp : img.palette.length = 0) (hd : img.decodePixels = some pixels)
    (_hc : img.colors = 3) (_hb : img.bits = 8) :
    ∃ sm pri : RawStream,
      (embedImageIn deflate img reg).2 = reg ++ [sm, pri] ∧
      (embedImageIn deflate img reg).1 = some (reg.length + 1) ∧
      dictGet pri.dict "SMask" = some (.pref reg.length) ∧
      sm.payload = deflate (splitAlphaBuffers img pixels).2.data ∧
      dictGet sm.dict "ColorSpace" = some (.pname "DeviceGray") ∧
      (splitAlphaBuffers img pixels).2.data.length = img.width * img.height ∧
      (splitAlphaBuffers img pixels).1.data.length =
        img.width * img.height * (img.colors * img.bits / 8) := by
  have hcs1 : (colorSpaceStep img (withDecodeParms img) reg).1 =
      dictSet (withDecodeParms img) "ColorSpace" (.pname img.colorSpace) := by
    unfold colorSpaceStep
    rw [if_pos hp]
  have hcs2 : (colorSpaceStep img (withDecodeParms img) reg).2 = reg := by
    rw [colorSpaceStep_snd, if_pos hp]
  have hemb : embedImageIn deflate img reg =
      (some ((reg ++ [(⟨alphaStreamDict img (splitAlphaBuffers img pixels).2.data.length,
          deflate (splitAlphaBuffers img pixels).2.data⟩ : RawStream)]).length),
       reg ++ [(⟨alphaStreamDict img (splitAlphaBuffers img pixels).2.data.length,
          deflate (splitAlphaBuffers img pixels).2.data⟩ : RawStream),
         (⟨dictSet (dictSet (dictSet (withDecodeParms img) "ColorSpace"
              (.pname img.colorSpace)) "SMask" (.pref reg.length)) "Length"
              (.pnum (deflate (splitAlphaBuffers img pixels).1.data).length),
           deflate (splitAlphaBuffers img pixels).1.data⟩ : RawStream)]) := by
    rw [embedImageIn_native_eq deflate img reg pixels ht ha hd, hcs1, hcs2,
      finalize_some_eq]
  refine ⟨⟨alphaStreamDict img (splitAlphaBuffers img pixels).2.data.length,
           deflate (splitAlphaBuffers img pixels).2.data⟩,
          ⟨dictSet (dictSet (dictSet (withDecodeParms img) "ColorSpace"
              (.pname img.colorSpace)) "SMask" (.pref reg.length)) "Length"
              (.pnum (deflate (splitAlphaBuffers img pixels).1.data).length),
           deflate (splitAlphaBuffers img pixels).1.data⟩,
          ?_, ?_, ?_, rfl, ?_, ?_, ?_⟩
  · rw [hemb]
  · rw [hemb]
    simp
  · rw [dictGet_dictSet_ne _ _ _ _ (by decide), dictGet_dictSet_self]
  · rfl
  · unfold splitAlphaBuffers
    rw [(splitLoopAux_lengths pixels pixels.length _ _ 0 0 0).2]
    simp [U8.new]
  · unfold splitAlphaBuffers
    rw [(splitLoopAux_lengths pixels pixels.length _ _ 0 0 0).1]
    simp [U8.new]

/-- A concrete pure stand-in for the external compressor (`pako.deflate`):
prepends the two zlib header bytes.  Like real zlib output on small inputs,
its output length differs from its input length. -/
def deflateSample (l : List Nat) : List Nat := 120 :: 156 :: l

/-- A 1x1 RGBA raster (native alpha, no palette). -/
def rgbaSmallSample : PNGImage :=
  { width := 1, height := 1, bits := 8, colors := 3, colorSpace := "DeviceRGB",
    palette := [], transparencyIndexed := none, hasAlphaChannel := true,
    imgData := [], decodePixels := some [10, 20, 30, 40] }

/-- Closed instance of C7 at a concrete 1x1 RGBA image. -/
theorem rgba_embed_two_resources_witness :
    ∃ sm pri : RawStream,
      (embedImageIn deflateSample rgbaSmallSample []).2 = [] ++ [sm, pri] ∧
      (embedImageIn deflateSample rgbaSmallSample []).1 =
        some (([] : List RawStream).length + 1) ∧
      dictGet pri.dict "SMask" = some (.pref ([] : List RawStream).length) ∧
      sm.payload = deflateSample (splitAlphaBuffers rgbaSmallSample [10, 20, 30, 40]).2.data ∧
      dictGet sm.dict "ColorSpace" = some (.pname "DeviceGray") ∧
      (splitAlphaBuffers rgbaSmallSample [10, 20, 30, 40]).2.data.length =
        rgbaSmallSample.width * rgbaSmallSample.height ∧
      (splitAlphaBuffers rgbaSmallSample [10, 20, 30, 40]).1.data.length =
        rgbaSmallSample.width * rgbaSmallSample.height *
          (rgbaSmallSample.colors * rgbaSmallSample.bits / 8) :=
  rgba_embed_two_resources deflateSample rgbaSmallSample [] [10, 20, 30, 40]
    rfl rfl rfl rfl rfl rfl

/-- A 2x2 RGBA raster with fully opaque alpha. -/
def rgbaOpaqueSample : PNGImage :=
  { width := 2, height := 2, bits := 8, colors := 3, colorSpace := "DeviceRGB",
    palette := [], transparencyIndexed := none, hasAlphaChannel := true,
    imgData := [],
    decodePixels := some [1, 2, 3, 255, 4, 5, 6, 255, 7, 8, 9, 255, 10, 11, 12, 255] }

/-- C2: the stream base contract (`Length` header equals the byte length of
the registered payload) is broken by the soft-mask stream: `finalize` sets
its `Length` to the *uncompressed* alpha buffer length (4) while
registering the deflate-compressed payload (here 6 bytes).  The primary
stream (second pair) does satisfy the contract (14 = 14). -/
theorem smask_length_header_mismatch :
    ((embedImageIn deflateSample rgbaOpaqueSample []).2.map
      (fun s => (dictGet s.dict "Length", s.payload.length))) =
      [(some (.pnum 4), 6), (some (.pnum 14), 14)] ∧ (4 : Nat) ≠ 6 :=
  ⟨rfl, by decide⟩

/-- A 2x2 indexed raster with a per-palette alpha table whose pixel decode
fails (`decodePixelsSync` throws, e.g. unsupported bit depth). -/
def indexedFailSample : PNGImage :=
  { width := 2, height := 2, bits := 8, colors := 1, colorSpace := "DeviceRGB",
    palette := [255, 0, 0, 0, 255, 0, 0, 0, 255, 255, 255, 0],
    transparencyIndexed := some [0, 255, 255, 255],
    hasAlphaChannel := false, imgData := [],
    decodePixels := none }

/-- C4 counterexample: the embed fails (`none`), yet one `register` call
has already taken effect — the palette stream is registered before the
pixel decode runs, so the failed embed leaves a registered resource
behind. -/
theorem embed_failure_registers_palette :
    (embedImageIn deflateSample indexedFailSample []).1 = none ∧
    (embedImageIn deflateSample indexedFailSample []).2 =
      [paletteRawStream indexedFailSample] ∧
    [paletteRawStream indexedFailSample] ≠ ([] : List RawStream) :=
  ⟨rfl, rfl, by simp⟩

/-- C4 amended: when the embed fails, the registrations that took effect
are exactly those made before the failure point: none if the image has no
palette, and exactly the palette stream otherwise. -/
theorem embed_abort_keeps_prior_registrations (deflate : List Nat → List Nat)
    (img : PNGImage) (reg : List RawStream)
    (h : (embedImageIn deflate img reg).1 = none) :
    (embedImageIn deflate img reg).2 =
      if img.palette.length = 0 then reg else reg ++ [paletteRawStream img] := by
  rw [← colorSpaceStep_snd img (withDecodeParms img) reg]
  cases ht : img.transparencyIndexed with
  | some table =>
    cases hd : img.decodePixels with
    | none => simp only [embedImageIn, ht, hd]
    | some pixels =>
      exfalso
      rw [embedImageIn_indexed_eq deflate img reg table pixels ht hd] at h
      simp at h
  | none =>
    cases hb : img.hasAlphaChannel with
    | true =>
      cases hd : img.decodePixels with
      | none => simp only [embedImageIn, ht, hb, hd]
      | some pixels =>
        exfalso
        rw [embedImageIn_native_eq deflate img reg pixels ht hb hd] at h
        simp at h
    | false =>
      exfalso
      simp only [embedImageIn, ht, hb] at h
      simp at h

/-- Closed instance of the amended C4 at the failing indexed sample. -/
theorem embed_abort_keeps_prior_registrations_witness :
    (embedImageIn deflateSample indexedFailSample []).2 =
      if indexedFailSample.palette.length = 0 then ([] : List RawStream)
      else [] ++ [paletteRawStream indexedFailSample] :=
  embed_abort_keeps_prior_registrations deflateSample indexedFailSample [] rfl

/-- C8: an indexed image with a per-palette alpha table registers exactly
three resources (palette stream, then soft mask, then primary), and every
soft-mask byte is the alpha table entry at the pixel's palette index. -/
theorem indexed_alpha_three_resources (deflate : List Nat → List Nat) (img : PNGImage)
    (reg : List RawStream) (table pixels : List Nat)
    (ht : img.transparencyIndexed = some table)
    (hp : img.palette.length ≠ 0)
    (hd : img.decodePixels = some pixels)
    (hlen : pixels.length = img.width * img.height)
    (hin : ∀ p ∈ pixels, p < table.length)
    (hbyte : ∀ v ∈ table, v < 256) :
    ∃ sm pri : RawStream,
      (embedImageIn deflate img reg).2 = reg ++ [paletteRawStream img, sm, pri] ∧
      (embedImageIn deflate img reg).1 = some (reg.length + 2) ∧
      sm.payload = deflate (indexedAlphaData table pixels img.width img.height) ∧
      dictGet pri.dict "SMask" = some (.pref (reg.length + 1)) ∧
      ∀ i, i < img.width * img.height →
        (indexedAlphaData table pixels img.width img.height).getD i 0 =
          table.getD (pixels.getD i 0) 0 := by
  have hcs1 : (colorSpaceStep img (withDecodeParms img) reg).1 =
      dictSet (withDecodeParms img) "ColorSpace"
        (.parr [.pname "Indexed", .pname "DeviceRGB",
                .pnum (img.palette.length / 3 - 1), .pref reg.length]) := by
    unfold colorSpaceStep
    rw [if_neg hp]
    rfl
  have hcs2 : (colorSpaceStep img (withDecodeParms img) reg).2 =
      reg ++ [paletteRawStream img] := by
    rw [colorSpaceStep_snd, if_neg hp]
  have hemb : embedImageIn deflate img reg =
      (some ((reg ++ [paletteRawStream img] ++
          [(⟨alphaStreamDict img (indexedAlphaData table pixels img.width img.height).length,
            deflate (indexedAlphaData table pixels img.width img.height)⟩ : RawStream)]).length),
       reg ++ [paletteRawStream img] ++
         [(⟨alphaStreamDict img (indexedAlphaData table pixels img.width img.height).length,
            deflate (indexedAlphaData table pixels img.width img.height)⟩ : RawStream),
          (⟨dictSet (dictSet (dictSet (withDecodeParms img) "ColorSpace"
              (.parr [.pname "Indexed", .pname "DeviceRGB",
                      .pnum (img.palette.length / 3 - 1), .pref reg.length]))
              "SMask" (.pref (reg ++ [paletteRawStream img]).length)) "Length"
              (.pnum img.imgData.length), img.imgData⟩ : RawStream)]) := by
    rw [embedImageIn_indexed_eq deflate img reg table pixels ht hd, hcs1, hcs2,
      finalize_some_eq]
  refine ⟨⟨alphaStreamDict img (indexedAlphaData table pixels img.width img.height).length,
           deflate (indexedAlphaData table pixels img.width img.height)⟩,
          ⟨dictSet (dictSet (dictSet (withDecodeParms img) "ColorSpace"
              (.parr [.pname "Indexed", .pname "DeviceRGB",
                      .pnum (img.palette.length / 3 - 1), .pref reg.length]))
              "SMask" (.pref (reg ++ [paletteRawStream img]).length)) "Length"
              (.pnum img.imgData.length), img.imgData⟩,
          ?_, ?_, rfl, ?_, ?_⟩
  · rw [hemb]
    simp only [List.append_assoc, List.singleton_append, List.cons_append,
      List.nil_append]
  · rw [hemb]
    simp
  · rw [dictGet_dictSet_ne _ _ _ _ (by decide), dictGet_dictSet_self]
    simp
  · intro i hi
    have hilt : i < pixels.length := by omega
    rw [indexedAlphaData_eq_map table pixels _ _ hlen, list_getD_map _ pixels i hilt]
    have hpmem : pixels.getD i 0 ∈ pixels := list_getD_mem pixels i 0 hilt
    have hplt : pixels.getD i 0 < table.length := hin _ hpmem
    have htmem : table.getD (pixels.getD i 0) 0 ∈ table :=
      list_getD_mem table _ 0 hplt
    exact Nat.mod_eq_of_lt (hbyte _ htmem)

/-- A 2x2 indexed raster with a 4-color palette and a per-palette alpha
table; pixel decode succeeds with one pixel per palette entry. -/
def indexedSample : PNGImage :=
  { width := 2, height := 2, bits := 8, colors := 1, colorSpace := "DeviceRGB",
    palette := [255, 0, 0, 0, 255, 0, 0, 0, 255, 255, 255, 0],
    transparencyIndexed := some [0, 128, 200, 255],
    hasAlphaChannel := false, imgData := [7, 7, 7, 7],
    decodePixels := some [0, 1, 2, 3] }

/-- Closed instance of C8 at the 2x2, 4-color indexed sample. -/
theorem indexed_alpha_three_resources_witness :
    ∃ sm pri : RawStream,
      (embedImageIn deflateSample indexedSample []).2 =
        [] ++ [paletteRawStream indexedSample, sm, pri] ∧
      (embedImageIn deflateSample indexedSample []).1 =
        some (([] : List RawStream).length + 2) ∧
      sm.payload = deflateSample
        (indexedAlphaData [0, 128, 200, 255] [0, 1, 2, 3]
          indexedSample.width indexedSample.height) ∧
      dictGet pri.dict "SMask" = some (.pref (([] : List RawStream).length + 1)) ∧
      ∀ i, i < indexedSample.width * indexedSample.height →
        (indexedAlphaData [0, 128, 200, 255] [0, 1, 2, 3]
          indexedSample.width indexedSample.height).getD i 0 =
          ([0, 128, 200, 255] : List Nat).getD (([0, 1, 2, 3] : List Nat).getD i 0) 0 :=
  indexed_alpha_three_resources deflateSample indexedSample []
    [0, 128, 200, 255] [0, 1, 2, 3] rfl (by decide) rfl rfl (by decide) (by decide)

/-- C10: a pixel whose palette index falls outside the alpha lookup table
yields soft-mask byte 0 (the `undefined` read is coerced to 0 by the
Uint8Array store) and the embed still succeeds — no error is raised. -/
theorem indexed_alpha_oob_transparent (deflate : List Nat → List Nat) (img : PNGImage)
    (reg : List RawStream) (table pixels : List Nat) (i : Nat)
    (ht : img.transparencyIndexed = some table)
    (hd : img.decodePixels = some pixels)
    (hlen : pixels.length = img.width * img.height)
    (hi : i < pixels.length)
    (hoob : table.length ≤ pixels.getD i 0) :
    (embedImageIn deflate img reg).1.isSome = true ∧
    (indexedAlphaData table pixels img.width img.height).getD i 0 = 0 := by
  constructor
  · rw [embedImageIn_indexed_eq deflate img reg table pixels ht hd]
    rfl
  · rw [indexedAlphaData_eq_map table pixels _ _ hlen,
      list_getD_map _ pixels i hi, list_getD_of_le table _ 0 hoob]

/-- A 2x2 indexed raster whose alpha table has only 2 entries while one
pixel carries palette index 3. -/
def indexedOobSample : PNGImage :=
  { width := 2, height := 2, bits := 8, colors := 1, colorSpace := "DeviceRGB",
    palette := [255, 0, 0, 0, 255, 0],
    transparencyIndexed := some [0, 255],
    hasAlphaChannel := false, imgData := [1],
    decodePixels := some [0, 3, 1, 1] }

/-- Closed instance of C10: pixel 1 has palette index 3, outside the
2-entry alpha table, and its soft-mask byte is 0 with no error raised. -/
theorem indexed_alpha_oob_transparent_witness :
    (embedImageIn deflateSample indexedOobSample []).1.isSome = true ∧
    (indexedAlphaData [0, 255] [0, 3, 1, 1]
      indexedOobSample.width indexedOobSample.height).getD 1 0 = 0 :=
  indexed_alpha_oob_transparent deflateSample indexedOobSample [] [0, 255]
    [0, 3, 1, 1] 1 rfl rfl rfl (by decide) (by decide)
